import Mathlib

/-!
Verification development for the LowLlamaBasic inference engine
(`src/model.cpp`): a shallow embedding of the parameter loader, the
configuration/rope-frequency computation, the numeric operator library
(rmsNorm, project, rotate, softmax, grouped-query causal self-attention,
swiGlu) and the `predict` forward pipeline, together with theorems about
their data flow and exact algebraic behaviour.

Numeric model: the C++ source computes with IEEE-754 `float`; here the
arithmetic is modelled exactly over `ℚ`, and the transcendental library
functions (`std::exp`, `std::sqrt`, `std::cos`, `std::sin`, `std::pow`)
and the constant `2·π` are taken as explicit function parameters, since
the properties studied are structural (index/data flow, exact algebraic
identities) rather than rounding statements.  BF16 weights appear as
already-decoded rational values except where the bit-level codec itself
is the object of study.
-/

namespace LowLlama

/-- Model of `Activation` from `model.cpp`: a flat buffer of `size`
numeric entries.  `data` is total; entries at indices `≥ size` model
uninitialised storage and are never constrained by any theorem. -/
structure Activation where
  size : ℕ
  data : ℕ → ℚ

/-! ### Low-precision float codec (`bf16_to_float`, model.cpp lines 24-32)

The C++ function builds a 32-bit float whose bit pattern (little-endian
union of two `int16_t`) is the stored 16-bit value in the upper half and
zero in the lower half, then reinterprets those bits as a `float`.
Reinterpretation is bit-identity, so the decoder is modelled at the bit
level: a 16-bit input pattern `v` maps to the 32-bit output pattern. -/

/-- Bit-level model of `bf16_to_float`: the stored 16 bits are placed in
the upper half of a 32-bit word (`u.i[1] = value`) and the lower half is
zeroed (`u.i[0] = 0`); the result is the bit pattern of the returned
float. -/
def bf16_to_float_bits (v : ℕ) : ℕ :=
  (v % 2 ^ 16) * 2 ^ 16

/-- Upper 16 bits of a 32-bit word: the truncation that re-encodes a
float's bit pattern as a BF16 value. -/
def upper16 (w : ℕ) : ℕ :=
  w / 2 ^ 16 % 2 ^ 16

/-! ### Configuration loading (`loadConfig`, model.cpp lines 122-150) -/

/-- The hyperparameter fields `loadConfig` reads from the JSON
configuration document (nested `rope_scaling` fields are flattened with
a `rope_` prefix). -/
structure Config where
  num_hidden_layers : ℕ
  vocab_size : ℕ
  hidden_size : ℕ
  intermediate_size : ℕ
  head_dim : ℕ
  num_key_value_heads : ℕ
  num_attention_heads : ℕ
  rms_norm_eps : ℚ
  rope_theta : ℚ
  rope_factor : ℚ
  rope_low_freq_factor : ℚ
  rope_high_freq_factor : ℚ
  rope_original_max_position_embeddings : ℕ

/-- Model of the per-layer parameter record `Layer`: each `Parameter`
is the (already bf16-decoded) flat weight array, as a function from flat
index to value. -/
structure Layer where
  attnNorm : ℕ → ℚ
  attnQ : ℕ → ℚ
  attnK : ℕ → ℚ
  attnV : ℕ → ℚ
  attnO : ℕ → ℚ
  mlpNorm : ℕ → ℚ
  mlpUp : ℕ → ℚ
  mlpGate : ℕ → ℚ
  mlpDown : ℕ → ℚ

/-- Model of the `Model` struct: hyperparameters, the precomputed rope
frequency table, and the parameter views.  The parameter fields default
to zero functions, mirroring the default-constructed state before
`loadParameters` fills them in. -/
structure Model where
  nLayers : ℕ
  dVocab : ℕ
  dModel : ℕ
  dFFN : ℕ
  dAttnHead : ℕ
  dAttnKV : ℕ
  dAttnQ : ℕ
  ropeFreq : List ℚ
  normEps : ℚ
  embedTokens : ℕ → ℚ := fun _ => 0
  layers : List Layer := []
  finalNorm : ℕ → ℚ := fun _ => 0

/-- The rope frequency loop of `loadConfig` (model.cpp lines 142-148):
`for (i = 0; i < dAttnHead; i += 2)` runs `⌈dAttnHead/2⌉` times with
`i = 2·j`; each iteration pushes
`freq * ((1-z)/factor + z)` where `freq = theta^(-i/dAttnHead)` and `z`
is `std::clamp(z0, 0, 1)` of
`z0 = (origLen·freq/(2π) - lowFreqFactor)/(highFreqFactor - lowFreqFactor)`.
`std::clamp(v, lo, hi)` is `v < lo ? lo : (hi < v ? hi : v)`.
`powf` models `std::pow` and `twoPi` models `2 * (float)M_PI`. -/
def ropeFreqTable (powf : ℚ → ℚ → ℚ) (twoPi : ℚ)
    (theta factor lowF highF : ℚ) (origLen dHead : ℕ) : List ℚ :=
  (List.range ((dHead + 1) / 2)).map (fun j =>
    let i : ℕ := 2 * j
    let freq := powf theta (-(i : ℚ) / (dHead : ℚ))
    let z0 := ((origLen : ℚ) * freq / twoPi - lowF) / (highF - lowF)
    let z := if z0 < 0 then 0 else if 1 < z0 then 1 else z0
    freq * ((1 - z) / factor + z))

/-- Model of `loadConfig` (model.cpp lines 122-150): copies the scalar
hyperparameters, computes `dAttnQ` by C++ unsigned (truncating) integer
division `num_attention_heads / num_key_value_heads`, and fills the rope
frequency table. -/
def loadConfig (powf : ℚ → ℚ → ℚ) (twoPi : ℚ) (c : Config) : Model where
  nLayers := c.num_hidden_layers
  dVocab := c.vocab_size
  dModel := c.hidden_size
  dFFN := c.intermediate_size
  dAttnHead := c.head_dim
  dAttnKV := c.num_key_value_heads
  dAttnQ := c.num_attention_heads / c.num_key_value_heads
  ropeFreq := ropeFreqTable powf twoPi c.rope_theta c.rope_factor
    c.rope_low_freq_factor c.rope_high_freq_factor
    c.rope_original_max_position_embeddings c.head_dim
  normEps := c.rms_norm_eps

/-- Clamp on rationals, written from the spec formula `clamp(x, lo, hi)`. -/
def clampQ (z lo hi : ℚ) : ℚ := max lo (min z hi)

/-- Spec-side formula for the rope frequency at even index `i` (from the
claim wording): `f·((1−z)/scaleFactor + z)` with `f = theta^(−i/headDim)`
and `z = clamp((originalMaxPositions·f/(2π) − lowFreqFactor)/(highFreqFactor
− lowFreqFactor), 0, 1)`. -/
def ropeFreqSpec (powf : ℚ → ℚ → ℚ) (twoPi : ℚ)
    (theta factor lowF highF : ℚ) (origLen dHead : ℕ) (i : ℕ) : ℚ :=
  let f := powf theta (-(i : ℚ) / (dHead : ℚ))
  let z := clampQ (((origLen : ℚ) * f / twoPi - lowF) / (highF - lowF)) 0 1
  f * ((1 - z) / factor + z)

/-! ### Operator library (model.cpp lines 204-325) -/

/-- Value of `*std::max_element(begin, end)` on the entries of a buffer,
as used by `softmaxInPlace`.  The C++ call is undefined on an empty
buffer; the `[]` case is an arbitrary placeholder never relied upon. -/
def listMax : List ℚ → ℚ
  | [] => 0
  | x :: xs => xs.foldl max x

/-- Model of `softmaxInPlace` (model.cpp lines 265-275) on the buffer
contents as a list: subtract the maximum, exponentiate with `expf`
(modelling `std::exp`), then divide every entry by the sum. -/
def softmaxInPlace (expf : ℚ → ℚ) (xs : List ℚ) : List ℚ :=
  let m := listMax xs
  let es := xs.map (fun a => expf (a - m))
  es.map (fun e => e / es.sum)

/-- Flat index of query/output entry `(sQ, iKV, iQ, i)` in a buffer of
shape `(seq, dKV, dQ, dHead)`, exactly as written in `selfAttention`:
`sQ * dKV * dQ * dHead + iKV * dQ * dHead + iQ * dHead + i`. -/
def qIdx (dKV dQ dHead sQ iKV iQ i : ℕ) : ℕ :=
  sQ * (dKV * dQ * dHead) + iKV * (dQ * dHead) + iQ * dHead + i

/-- Flat index of key/value entry `(sKV, iKV, i)` in a buffer of shape
`(seq, dKV, dHead)`, exactly as written in `selfAttention`:
`sKV * dKV * dHead + iKV * dHead + i`. -/
def kvIdx (dKV dHead sKV iKV i : ℕ) : ℕ :=
  sKV * (dKV * dHead) + iKV * dHead + i

/-- The raw (pre-softmax) score buffer built by `selfAttention` for query
position `sQ`, KV group `iKV`, query head `iQ`: for each `sKV ≤ sQ`, the
dot product of the query vector with key vector `sKV` of group `iKV`,
divided by `sqrtf dHead` (modelling `std::sqrt((float)dHead)`). -/
def attnScores (sqrtf : ℚ → ℚ) (q k : ℕ → ℚ)
    (dKV dQ dHead sQ iKV iQ : ℕ) : List ℚ :=
  (List.range (sQ + 1)).map (fun sKV =>
    ((List.range dHead).map (fun i =>
        q (qIdx dKV dQ dHead sQ iKV iQ i) * k (kvIdx dKV dHead sKV iKV i))).sum
      / sqrtf (dHead : ℚ))

/-- One output entry of `selfAttention`: softmax the score buffer, then
weighted-sum the value vectors of group `iKV` over `sKV ≤ sQ` at head
coordinate `i`. -/
def attnEntry (expf sqrtf : ℚ → ℚ) (q k v : ℕ → ℚ)
    (dKV dQ dHead sQ iKV iQ i : ℕ) : ℚ :=
  let scores := softmaxInPlace expf (attnScores sqrtf q k dKV dQ dHead sQ iKV iQ)
  ((List.range (sQ + 1)).map (fun sKV =>
    scores.getD sKV 0 * v (kvIdx dKV dHead sKV iKV i))).sum

/-- Model of `selfAttention` (model.cpp lines 281-313): grouped-query
causal attention.  The output has the size of `q`; the entry at flat
index `idx` is obtained by decoding `idx` into `(sQ, iKV, iQ, i)` per the
`(seq, dKV, dQ, dHead)` layout and computing the score/softmax/weighted
sum of the source's loop body.  (In the source, entries whose decoded
`sQ` is `≥ dSeq = k.size / (dKV·dHead)` stay uninitialised; here the
formula is total, and no theorem depends on such entries.) -/
def selfAttention (expf sqrtf : ℚ → ℚ) (q k v : Activation)
    (dKV dQ dHead : ℕ) : Activation :=
  ⟨q.size, fun idx =>
    let sQ := idx / (dKV * dQ * dHead)
    let r := idx % (dKV * dQ * dHead)
    attnEntry expf sqrtf q.data k.data v.data dKV dQ dHead
      sQ (r / (dQ * dHead)) (r % (dQ * dHead) / dHead) (r % dHead)⟩

/-- Model of `embeddingLookup` (model.cpp lines 204-214): row `n` of the
output is the decoded embedding row for token `tokens[n]`.  The flat
entry at `idx = n·dModel + i` reads `weight[tokens[n]·dModel + i]`. -/
def embeddingLookup (tokens : List ℕ) (weight : ℕ → ℚ) (dModel : ℕ) :
    Activation :=
  ⟨tokens.length * dModel, fun idx =>
    weight (tokens.getD (idx / dModel) 0 * dModel + idx % dModel)⟩

/-- Model of `rmsNorm` (model.cpp lines 216-229): for the row containing
flat index `idx` (rows of width `dModel` starting at multiples of
`dModel`), compute `sumSq` of the row, then scale the entry by
`1 / sqrtf (sumSq / dModel + eps)` times the weight at the column
index.  `sqrtf` models `std::sqrt`. -/
def rmsNorm (sqrtf : ℚ → ℚ) (x : Activation) (weight : ℕ → ℚ)
    (dModel : ℕ) (eps : ℚ) : Activation :=
  ⟨x.size, fun idx =>
    let i0 := idx / dModel * dModel
    let sumSq := ((List.range dModel).map
      (fun i => x.data (i0 + i) * x.data (i0 + i))).sum
    x.data idx * (1 / sqrtf (sumSq / (dModel : ℚ) + eps)) *
      weight (idx % dModel)⟩

/-- Model of `project` (model.cpp lines 231-244): dense linear map with
no bias.  Output entry at `idx = n·dOut + j` is the dot product of input
row `n` (length `dIn`) with weight row `j`; the output has
`x.size / dIn * dOut` entries. -/
def project (x : Activation) (weight : ℕ → ℚ) (dIn dOut : ℕ) :
    Activation :=
  ⟨x.size / dIn * dOut, fun idx =>
    ((List.range dIn).map (fun i =>
      x.data (idx / dOut * dIn + i) * weight (idx % dOut * dIn + i))).sum⟩

/-- Model of `rotate` (model.cpp lines 247-263): rotary position
embedding over a tensor of shape `(seq, nHeads, 2·freq.length)`.  For
flat index `idx` with position `n = idx / (nHeads·headDim)` and in-head
coordinate `p = idx % headDim`: a real coordinate (`p < freq.length`)
pairs with the imaginary coordinate `freq.length` further on, and vice
versa.  `cosf`/`sinf` model `std::cos`/`std::sin`. -/
def rotate (cosf sinf : ℚ → ℚ) (x : Activation) (freq : List ℚ)
    (nHeads : ℕ) : Activation :=
  let headDim := 2 * freq.length
  ⟨x.size, fun idx =>
    let n := idx / (nHeads * headDim)
    let p := idx % headDim
    if p < freq.length then
      cosf (freq.getD p 0 * (n : ℚ)) * x.data idx -
        sinf (freq.getD p 0 * (n : ℚ)) * x.data (idx + freq.length)
    else
      cosf (freq.getD (p - freq.length) 0 * (n : ℚ)) * x.data idx +
        sinf (freq.getD (p - freq.length) 0 * (n : ℚ)) *
          x.data (idx - freq.length)⟩

/-- Model of `addInPlace` (model.cpp lines 315-319): elementwise
residual addition into `lhs` (explicit state passing for the in-place
mutation; the result is the new value of `lhs`). -/
def addInPlace (lhs rhs : Activation) : Activation :=
  ⟨lhs.size, fun idx => lhs.data idx + rhs.data idx⟩

/-- Model of `swiGluInPlace` (model.cpp lines 321-325):
`x_i ← x_i · gate_i / (1 + expf(−gate_i))`. -/
def swiGluInPlace (expf : ℚ → ℚ) (x gate : Activation) : Activation :=
  ⟨x.size, fun idx =>
    x.data idx * (gate.data idx / (1 + expf (-gate.data idx)))⟩

/-- Model of `attention` (model.cpp lines 330-341): rmsNorm, project to
Q/K/V, rotate Q and K, grouped-query self-attention, output
projection. -/
def attention (expf sqrtf cosf sinf : ℚ → ℚ) (m : Model) (l : Layer)
    (x : Activation) : Activation :=
  let z := rmsNorm sqrtf x l.attnNorm m.dModel m.normEps
  let q := project z l.attnQ m.dModel (m.dAttnKV * m.dAttnQ * m.dAttnHead)
  let k := project z l.attnK m.dModel (m.dAttnKV * m.dAttnHead)
  let v := project z l.attnV m.dModel (m.dAttnKV * m.dAttnHead)
  let q2 := rotate cosf sinf q m.ropeFreq (m.dAttnKV * m.dAttnQ)
  let k2 := rotate cosf sinf k m.ropeFreq m.dAttnKV
  let mix := selfAttention expf sqrtf q2 k2 v m.dAttnKV m.dAttnQ m.dAttnHead
  project mix l.attnO (m.dAttnKV * m.dAttnQ * m.dAttnHead) m.dModel

/-- Model of `mlp` (model.cpp lines 343-349): rmsNorm, up and gate
projections, swiGlu, down projection. -/
def mlp (expf sqrtf : ℚ → ℚ) (m : Model) (l : Layer) (x : Activation) :
    Activation :=
  let z := rmsNorm sqrtf x l.mlpNorm m.dModel m.normEps
  let up := project z l.mlpUp m.dModel m.dFFN
  let gate := project z l.mlpGate m.dModel m.dFFN
  let y := swiGluInPlace expf up gate
  project y l.mlpDown m.dFFN m.dModel

/-- The per-layer loop body of `predict` (model.cpp lines 354-357):
`hidden += attention(hidden); hidden += mlp(hidden)`. -/
def layerStep (expf sqrtf cosf sinf : ℚ → ℚ) (m : Model)
    (h : Activation) (l : Layer) : Activation :=
  let h1 := addInPlace h (attention expf sqrtf cosf sinf m l h)
  addInPlace h1 (mlp expf sqrtf m l h1)

/-- The hidden state of `predict` after the embedding lookup, all layer
blocks, and the final rmsNorm (model.cpp lines 353-358). -/
def finalHidden (expf sqrtf cosf sinf : ℚ → ℚ) (m : Model)
    (tokens : List ℕ) : Activation :=
  let h0 := embeddingLookup tokens m.embedTokens m.dModel
  let h := m.layers.foldl (layerStep expf sqrtf cosf sinf m) h0
  rmsNorm sqrtf h m.finalNorm m.dModel m.normEps

/-- Index (relative to `start`) of the first maximal entry among
`f start, …, f (start + len − 1)`, as computed by
`std::max_element(begin, end) - begin` on the final-vocabulary slice of
the logits (`std::max_element` keeps the first of equal maxima). -/
def maxElemIdx (f : ℕ → ℚ) (len : ℕ) : ℕ :=
  (List.range len).foldl (fun best i => if f best < f i then i else best) 0

/-- Model of `predict` (model.cpp lines 351-363): forward pipeline, then
weight-tied output projection of the whole hidden buffer, then arg-max
over the final `dVocab` logits.  The source forms the slice pointer
`logits.data + logits.size - dVocab` and dereferences inside
`std::max_element` with no bounds check; the result is `none` exactly
when that slice is not within the logits buffer (the out-of-bounds /
empty-range undefined behaviour of the source). -/
def predict (expf sqrtf cosf sinf : ℚ → ℚ) (m : Model)
    (tokens : List ℕ) : Option ℕ :=
  let hidden := finalHidden expf sqrtf cosf sinf m tokens
  let logits := project hidden m.embedTokens m.dModel m.dVocab
  if 0 < m.dVocab ∧ m.dVocab ≤ logits.size then
    some (maxElemIdx (fun j => logits.data (logits.size - m.dVocab + j))
      m.dVocab)
  else none

/-- Spec-side helper (from the claim wording of C8): the final sequence
position's hidden vector, i.e. row `n` of width `width` of a flattened
activation. -/
def row (x : Activation) (width n : ℕ) : Activation :=
  ⟨width, fun i => x.data (n * width + i)⟩

/-- Trivial stand-in for `std::pow`, used to evaluate configurations at
concrete inputs. -/
def powf1 : ℚ → ℚ → ℚ := fun _ _ => 1

/-- Concrete stand-in for `2π`, used to evaluate configurations at
concrete inputs. -/
def twoPi1 : ℚ := 7

/-- Concrete configuration family for evaluating `loadConfig`. -/
def cfgEx (headDim nKV nAttn : ℕ) : Config where
  num_hidden_layers := 0
  vocab_size := 6
  hidden_size := 4
  intermediate_size := 8
  head_dim := headDim
  num_key_value_heads := nKV
  num_attention_heads := nAttn
  rms_norm_eps := 1
  rope_theta := 2
  rope_factor := 1
  rope_low_freq_factor := 1
  rope_high_freq_factor := 4
  rope_original_max_position_embeddings := 8

/-! ### Parameter loading (`loadParameters`, model.cpp lines 152-199) -/

/-- A parsed tensor header entry
`name → {dtype, data_offsets: [start, stop]}`. -/
structure HeaderEntry where
  dtype : String
  start : ℕ
  stop : ℕ
deriving DecidableEq

/-- The `maxOffset` computation of `loadParameters` (model.cpp lines
161-164): running maximum of `data_offsets[1]` over all header entries
(after `__metadata__` removal), starting from 0. -/
def maxOffset (entries : List HeaderEntry) : ℕ :=
  entries.foldl (fun acc e => max acc e.stop) 0

/-- Model of `std::vector<char>::reserve` (model.cpp line 168): changes
the capacity only; the vector's size and contents are unchanged. -/
def reserveVec (v : List ℕ) (_n : ℕ) : List ℕ := v

/-- One `file.read(v.data() + pos, src.length)` into a vector: defined
only when the written range stays within the vector's size; a write past
the end is undefined behaviour, modelled as `none`. -/
def writeBytes (v : List ℕ) (pos : ℕ) (src : List ℕ) : Option (List ℕ) :=
  if pos + src.length ≤ v.length then
    some (v.take pos ++ src ++ v.drop (pos + src.length))
  else none

/-- The chunked copy loop of `loadParameters` (model.cpp lines 169-172):
for chunk starts `i = 0, chunkSize, 2·chunkSize, …` below `maxOff`
(`⌈maxOff/chunkSize⌉` iterations), read `min chunkSize (maxOff − i)`
stream bytes into the buffer at position `i`.  `stream j` is byte `j` of
the stream's tensor byte region. -/
def copyChunks (stream : ℕ → ℕ) (chunkSize maxOff : ℕ) (v : List ℕ) :
    Option (List ℕ) :=
  ((List.range ((maxOff + chunkSize - 1) / chunkSize)).map
      (fun c => c * chunkSize)).foldl
    (fun acc i => acc.bind (fun buf =>
      writeBytes buf i ((List.range (min chunkSize (maxOff - i))).map
        (fun j => stream (i + j)))))
    (some v)

/-- The buffer phase of `loadParameters` (model.cpp lines 161-172):
compute `maxOffset`, *reserve* (not resize) the owned byte buffer
`_parameterData`, then copy the stream into it in chunks of `2^16`
bytes. -/
def loadParametersBuffer (entries : List HeaderEntry) (stream : ℕ → ℕ) :
    Option (List ℕ) :=
  copyChunks stream (2 ^ 16) (maxOffset entries)
    (reserveVec [] (maxOffset entries))

/-- The full stored name of a logical tensor, as built by the `load`
lambda (model.cpp line 176): `"model." + name + ".weight"`. -/
def fullName (nm : String) : String :=
  "model." ++ nm ++ ".weight"

/-- The logical tensor names requested by `loadParameters` (model.cpp
lines 183-198), in load order: `embed_tokens`, nine per-layer weights
for each layer index, then `norm`. -/
def logicalNames (nLayers : ℕ) : List String :=
  "embed_tokens" ::
    ((List.range nLayers).flatMap (fun idx =>
      ["layers." ++ toString idx ++ ".input_layernorm",
       "layers." ++ toString idx ++ ".self_attn.q_proj",
       "layers." ++ toString idx ++ ".self_attn.k_proj",
       "layers." ++ toString idx ++ ".self_attn.v_proj",
       "layers." ++ toString idx ++ ".self_attn.o_proj",
       "layers." ++ toString idx ++ ".post_attention_layernorm",
       "layers." ++ toString idx ++ ".mlp.gate_proj",
       "layers." ++ toString idx ++ ".mlp.up_proj",
       "layers." ++ toString idx ++ ".mlp.down_proj"]) ++ ["norm"])

/-- The `load` lambda of `loadParameters` (model.cpp lines 175-182):
look up the full tensor name in the header (a map from name to entry; a
missing key makes `operator[]` yield JSON null and the `dtype` read
throw a type error); an entry whose dtype is not `"BF16"` throws
`invalid_argument("Non-BF16 data")`; otherwise the recorded view is the
buffer base plus `data_offsets[0]`. -/
def loadOne (header : String → Option HeaderEntry) (nm : String) :
    Except String ℕ :=
  match header (fullName nm) with
  | none => Except.error ("type_error")
  | some e =>
    if e.dtype ≠ "BF16" then Except.error ("Non-BF16 data")
    else Except.ok e.start

/-- The parameter-pointer phase of `loadParameters` (model.cpp lines
183-198): the `load` calls in program order, collecting start offsets;
the first failure aborts the whole load (exception propagation), so no
partial result is produced. -/
def loadAllParams (header : String → Option HeaderEntry) :
    List String → Except String (List ℕ)
  | [] => Except.ok []
  | nm :: rest =>
    match loadOne header nm with
    | Except.error e => Except.error e
    | Except.ok p =>
      match loadAllParams header rest with
      | Except.error e => Except.error e
      | Except.ok ps => Except.ok (p :: ps)

/-- Whether an `Except` computation succeeded. -/
def isOkE {ε α : Type} : Except ε α → Bool
  | Except.ok _ => true
  | Except.error _ => false

/-- Concrete two-tensor header (0 layers) whose `norm` tensor has a
non-BF16 dtype. -/
def headerEx : String → Option HeaderEntry := fun s =>
  if s = fullName ("embed_tokens") then some { dtype := "BF16", start := 0, stop := 4 }
  else if s = fullName ("norm") then some { dtype := "F32", start := 4, stop := 8 }
  else none

/-- Concrete one-layer-free model (0 layers, `dModel = 1`, `dVocab = 2`)
for evaluating the forward pipeline at concrete inputs. -/
def modelEx : Model where
  nLayers := 0
  dVocab := 2
  dModel := 1
  dFFN := 1
  dAttnHead := 1
  dAttnKV := 1
  dAttnQ := 1
  ropeFreq := []
  normEps := 1
  embedTokens := fun idx => if idx = 0 then 1 else if idx = 1 then 2 else 0
  layers := []
  finalNorm := fun _ => 1

/-! ### Basic lemmas -/

lemma clamp_ite_eq_clampQ (z : ℚ) :
    (if z < 0 then 0 else if 1 < z then 1 else z) = clampQ z 0 1 := by
  unfold clampQ
  split_ifs with h0 h1
  · rw [min_eq_left (le_of_lt (lt_of_lt_of_le h0 zero_le_one)),
      max_eq_left (le_of_lt h0)]
  · rw [min_eq_right (le_of_lt h1), max_eq_right zero_le_one]
  · rw [min_eq_left (not_lt.mp h1), max_eq_right (not_lt.mp h0)]

lemma getD_map_range {α : Type} (f : ℕ → α) (d : α) {j n : ℕ} (h : j < n) :
    ((List.range n).map f).getD j d = f j := by
  rw [List.getD_eq_getElem?_getD, List.getElem?_map, List.getElem?_range h]
  rfl

lemma foldl_max_add (t : List ℚ) (c : ℚ) : ∀ b : ℚ,
    (t.map (fun a => a + c)).foldl max (b + c) = t.foldl max b + c := by
  induction t with
  | nil => intro b; rfl
  | cons a t ih =>
    intro b
    simp only [List.map_cons, List.foldl_cons]
    rw [max_add_add_right, ih]

lemma listMax_map_add (xs : List ℚ) (c : ℚ) (h : xs ≠ []) :
    listMax (xs.map (fun a => a + c)) = listMax xs + c := by
  cases xs with
  | nil => exact absurd rfl h
  | cons x t =>
    simp only [List.map_cons, listMax]
    exact foldl_max_add t c x

lemma sum_map_div (l : List ℚ) (S : ℚ) :
    (l.map (fun e => e / S)).sum = l.sum / S := by
  induction l with
  | nil => simp
  | cons a t ih => simp [ih, add_div]

lemma map_range_congr {α : Type} (f g : ℕ → α) (n : ℕ)
    (h : ∀ i < n, f i = g i) : (List.range n).map f = (List.range n).map g := by
  apply List.map_congr_left
  intro a ha
  exact h a (List.mem_range.mp ha)

lemma sum_map_range_congr (f g : ℕ → ℚ) (n : ℕ) (h : ∀ i < n, f i = g i) :
    ((List.range n).map f).sum = ((List.range n).map g).sum := by
  rw [map_range_congr f g n h]

lemma div_mod_decomp (a b M : ℕ) (hb : b < M) :
    (a * M + b) / M = a ∧ (a * M + b) % M = b := by
  have hM : 0 < M := by omega
  constructor
  · rw [Nat.mul_comm a M, Nat.mul_add_div hM, Nat.div_eq_of_lt hb, Nat.add_zero]
  · rw [Nat.mul_comm a M, Nat.mul_add_mod, Nat.mod_eq_of_lt hb]

lemma mul_add_lt (a b A B : ℕ) (ha : a < A) (hb : b < B) : a * B + b < A * B := by
  calc a * B + b < a * B + B := by omega
    _ = (a + 1) * B := by ring
    _ ≤ A * B := Nat.mul_le_mul_right B ha

lemma qIdx_decode (dKV dQ dHead sQ iKV iQ i : ℕ)
    (hKV : iKV < dKV) (hQ : iQ < dQ) (hi : i < dHead) :
    qIdx dKV dQ dHead sQ iKV iQ i / (dKV * dQ * dHead) = sQ ∧
      qIdx dKV dQ dHead sQ iKV iQ i % (dKV * dQ * dHead) / (dQ * dHead) = iKV ∧
      qIdx dKV dQ dHead sQ iKV iQ i % (dKV * dQ * dHead) % (dQ * dHead) / dHead = iQ ∧
      qIdx dKV dQ dHead sQ iKV iQ i % (dKV * dQ * dHead) % dHead = i := by
  have h1 : iQ * dHead + i < dQ * dHead := mul_add_lt _ _ _ _ hQ hi
  have h2 : iKV * (dQ * dHead) + (iQ * dHead + i) < dKV * (dQ * dHead) :=
    mul_add_lt _ _ _ _ hKV h1
  have hq : qIdx dKV dQ dHead sQ iKV iQ i =
      sQ * (dKV * (dQ * dHead)) + (iKV * (dQ * dHead) + (iQ * dHead + i)) := by
    unfold qIdx; ring
  have hM : dKV * dQ * dHead = dKV * (dQ * dHead) := by ring
  obtain ⟨dd1, mm1⟩ := div_mod_decomp sQ _ _ h2
  obtain ⟨dd2, mm2⟩ := div_mod_decomp iKV _ _ h1
  obtain ⟨dd3, mm3⟩ := div_mod_decomp iQ i dHead hi
  have hr : iKV * (dQ * dHead) + (iQ * dHead + i) = (iKV * dQ + iQ) * dHead + i := by
    ring
  obtain ⟨dd4, mm4⟩ := div_mod_decomp (iKV * dQ + iQ) i dHead hi
  refine ⟨?_, ?_, ?_, ?_⟩
  · rw [hq, hM, dd1]
  · rw [hq, hM, mm1, dd2]
  · rw [hq, hM, mm1, mm2, dd3]
  · rw [hq, hM, mm1, hr, mm4]

lemma selfAttention_data_at (expf sqrtf : ℚ → ℚ) (q k v : Activation)
    (dKV dQ dHead sQ iKV iQ i : ℕ)
    (hKV : iKV < dKV) (hQ : iQ < dQ) (hi : i < dHead) :
    (selfAttention expf sqrtf q k v dKV dQ dHead).data
        (qIdx dKV dQ dHead sQ iKV iQ i) =
      attnEntry expf sqrtf q.data k.data v.data dKV dQ dHead sQ iKV iQ i := by
  obtain ⟨dd1, dd2, dd3, dd4⟩ := qIdx_decode dKV dQ dHead sQ iKV iQ i hKV hQ hi
  simp only [selfAttention, dd1, dd2, dd3, dd4]

lemma layerStep_size (expf sqrtf cosf sinf : ℚ → ℚ) (m : Model)
    (h : Activation) (l : Layer) :
    (layerStep expf sqrtf cosf sinf m h l).size = h.size := rfl

lemma foldl_layerStep_size (expf sqrtf cosf sinf : ℚ → ℚ) (m : Model)
    (ls : List Layer) : ∀ h : Activation,
    (ls.foldl (layerStep expf sqrtf cosf sinf m) h).size = h.size := by
  induction ls with
  | nil => intro h; rfl
  | cons l t ih =>
    intro h
    rw [List.foldl_cons, ih, layerStep_size]

lemma finalHidden_size (expf sqrtf cosf sinf : ℚ → ℚ) (m : Model)
    (tokens : List ℕ) :
    (finalHidden expf sqrtf cosf sinf m tokens).size =
      tokens.length * m.dModel := by
  simp only [finalHidden, rmsNorm]
  rw [foldl_layerStep_size]
  rfl

lemma foldl_argmax_congr (f g : ℕ → ℚ) (l : List ℕ)
    (hl : ∀ i ∈ l, f i = g i) : ∀ b, f b = g b →
    l.foldl (fun best i => if f best < f i then i else best) b =
      l.foldl (fun best i => if g best < g i then i else best) b := by
  induction l with
  | nil => intro b _; rfl
  | cons a t ih =>
    intro b hb
    simp only [List.foldl_cons]
    rw [hb, hl a (List.mem_cons_self a t)]
    have hstep : f (if g b < g a then a else b) =
        g (if g b < g a then a else b) := by
      split_ifs
      · exact hl a (List.mem_cons_self a t)
      · exact hb
    exact ih (fun i hi => hl i (List.mem_cons_of_mem a hi)) _ hstep

lemma maxElemIdx_congr (f g : ℕ → ℚ) (len : ℕ) (hlen : 0 < len)
    (h : ∀ i < len, f i = g i) : maxElemIdx f len = maxElemIdx g len := by
  unfold maxElemIdx
  exact foldl_argmax_congr f g (List.range len)
    (fun i hi => h i (List.mem_range.mp hi)) 0 (h 0 hlen)

/-! ### Theorems -/

/-- Claim C9: after `softmaxInPlace` the entries sum to exactly 1 (in
the exact-arithmetic model; "within tolerance" in float), and the output
is invariant to adding a constant `c` to every input entry, because the
row maximum is subtracted before exponentiating.  `expf` models
`std::exp`, which is everywhere positive. -/
theorem softmax_sum_one_and_shift_invariant (expf : ℚ → ℚ) (c : ℚ)
    (xs : List ℚ) (hne : xs ≠ []) (hpos : ∀ a : ℚ, 0 < expf a) :
    (softmaxInPlace expf xs).sum = 1 ∧
      softmaxInPlace expf (xs.map (fun a => a + c)) = softmaxInPlace expf xs := by
  constructor
  · unfold softmaxInPlace
    have hS : 0 < (xs.map (fun a => expf (a - listMax xs))).sum := by
      apply List.sum_pos
      · intro a ha
        obtain ⟨b, _, rfl⟩ := List.mem_map.mp ha
        exact hpos _
      · simpa using hne
    rw [sum_map_div, div_self (ne_of_gt hS)]
  · simp only [softmaxInPlace]
    rw [listMax_map_add xs c hne]
    have hes : (xs.map (fun a => a + c)).map
          (fun a => expf (a - (listMax xs + c))) =
        xs.map (fun a => expf (a - listMax xs)) := by
      rw [List.map_map]
      apply List.map_congr_left
      intro a _
      simp only [Function.comp_apply]
      congr 1
      ring
    rw [hes]

/-- Witness for `softmax_sum_one_and_shift_invariant` on the buffer
`[1, 2]` with shift `3`. -/
theorem softmax_sum_one_and_shift_invariant_witness :
    (([(1 : ℚ), 2] ≠ []) ∧ ∀ a : ℚ, 0 < (fun _ : ℚ => (1 : ℚ)) a) ∧
      ((softmaxInPlace (fun _ => 1) [(1 : ℚ), 2]).sum = 1 ∧
        softmaxInPlace (fun _ => 1) ([(1 : ℚ), 2].map (fun a => a + 3)) =
          softmaxInPlace (fun _ => 1) [(1 : ℚ), 2]) :=
  ⟨⟨by decide, fun _ => one_pos⟩,
    softmax_sum_one_and_shift_invariant (fun _ => 1) 3 [(1 : ℚ), 2]
      (by decide) (fun _ => one_pos)⟩

/-- Claim C1: the `selfAttention` output vector at query position `sQ`,
KV group `iKV`, query head `iQ` depends only on the query entries at
`(sQ, iKV, iQ)` and on the key/value entries of group `iKV` at positions
`sKV ≤ sQ`: two runs whose inputs agree on exactly those entries produce
the same output vector, so changing a key/value entry at a position
`> sQ` or in a different group leaves it unchanged. -/
theorem selfAttention_causal_group_dependence (expf sqrtf : ℚ → ℚ)
    (q1 k1 v1 q2 k2 v2 : Activation) (dKV dQ dHead sQ iKV iQ : ℕ)
    (hKV : iKV < dKV) (hQ : iQ < dQ)
    (hq : ∀ i < dHead, q1.data (qIdx dKV dQ dHead sQ iKV iQ i) =
      q2.data (qIdx dKV dQ dHead sQ iKV iQ i))
    (hk : ∀ sKV ≤ sQ, ∀ i < dHead, k1.data (kvIdx dKV dHead sKV iKV i) =
      k2.data (kvIdx dKV dHead sKV iKV i))
    (hv : ∀ sKV ≤ sQ, ∀ i < dHead, v1.data (kvIdx dKV dHead sKV iKV i) =
      v2.data (kvIdx dKV dHead sKV iKV i)) :
    ∀ i < dHead,
      (selfAttention expf sqrtf q1 k1 v1 dKV dQ dHead).data
          (qIdx dKV dQ dHead sQ iKV iQ i) =
        (selfAttention expf sqrtf q2 k2 v2 dKV dQ dHead).data
          (qIdx dKV dQ dHead sQ iKV iQ i) := by
  intro i hi
  rw [selfAttention_data_at expf sqrtf q1 k1 v1 dKV dQ dHead sQ iKV iQ i hKV hQ hi,
    selfAttention_data_at expf sqrtf q2 k2 v2 dKV dQ dHead sQ iKV iQ i hKV hQ hi]
  have hscores : attnScores sqrtf q1.data k1.data dKV dQ dHead sQ iKV iQ =
      attnScores sqrtf q2.data k2.data dKV dQ dHead sQ iKV iQ := by
    unfold attnScores
    apply map_range_congr
    intro sKV hsKV
    dsimp only
    have key : ∀ j < dHead,
        q1.data (qIdx dKV dQ dHead sQ iKV iQ j) *
            k1.data (kvIdx dKV dHead sKV iKV j) =
          q2.data (qIdx dKV dQ dHead sQ iKV iQ j) *
            k2.data (kvIdx dKV dHead sKV iKV j) := by
      intro j hj
      rw [hq j hj, hk sKV (Nat.lt_succ_iff.mp hsKV) j hj]
    rw [sum_map_range_congr _ _ dHead key]
  unfold attnEntry
  rw [hscores]
  apply sum_map_range_congr
  intro sKV hsKV
  dsimp only
  rw [hv sKV (Nat.lt_succ_iff.mp hsKV) i hi]

/-- Witness for `selfAttention_causal_group_dependence` with 2 KV
groups, 3 query heads per group, head dimension 1, query position 0:
run 2 perturbs the keys and values at the other group (flat index 1) and
at the future position (flat index 2), and the output entry agrees. -/
theorem selfAttention_causal_group_dependence_witness :
    ((∀ i < 1, (Activation.mk 6 fun idx => (idx : ℚ)).data (qIdx 2 3 1 0 0 1 i) =
        (Activation.mk 6 fun idx => (idx : ℚ)).data (qIdx 2 3 1 0 0 1 i)) ∧
      (∀ sKV ≤ 0, ∀ i < 1,
        (Activation.mk 2 fun idx => (idx : ℚ)).data (kvIdx 2 1 sKV 0 i) =
          (Activation.mk 4 fun idx =>
            if idx = 1 then 99 else if idx = 2 then 77 else (idx : ℚ)).data
            (kvIdx 2 1 sKV 0 i))) ∧
      ∀ i < 1,
        (selfAttention (fun _ => 1) (fun _ => 1)
            (Activation.mk 6 fun idx => (idx : ℚ))
            (Activation.mk 2 fun idx => (idx : ℚ))
            (Activation.mk 2 fun idx => (idx : ℚ)) 2 3 1).data
            (qIdx 2 3 1 0 0 1 i) =
          (selfAttention (fun _ => 1) (fun _ => 1)
            (Activation.mk 6 fun idx => (idx : ℚ))
            (Activation.mk 4 fun idx =>
              if idx = 1 then 99 else if idx = 2 then 77 else (idx : ℚ))
            (Activation.mk 4 fun idx =>
              if idx = 1 then 99 else if idx = 2 then 77 else (idx : ℚ)) 2 3 1).data
            (qIdx 2 3 1 0 0 1 i) :=
  ⟨⟨by decide, by decide⟩,
    selfAttention_causal_group_dependence (fun _ => 1) (fun _ => 1)
      (Activation.mk 6 fun idx => (idx : ℚ))
      (Activation.mk 2 fun idx => (idx : ℚ))
      (Activation.mk 2 fun idx => (idx : ℚ))
      (Activation.mk 6 fun idx => (idx : ℚ))
      (Activation.mk 4 fun idx =>
        if idx = 1 then 99 else if idx = 2 then 77 else (idx : ℚ))
      (Activation.mk 4 fun idx =>
        if idx = 1 then 99 else if idx = 2 then 77 else (idx : ℚ))
      2 3 1 0 0 1 (by decide) (by decide) (by decide) (by decide) (by decide)⟩

/-- Claim C7: with a single key/value position (`sQ = 0`, one sequence
position in `k`), `selfAttention` returns exactly the value vector of
the group at position 0, for every query head: the softmax over the
single score is exactly `expf 0 / expf 0 = 1` (`std::exp(0) = 1`
exactly, so the float result is bit-exact as well). -/
theorem selfAttention_single_position (expf sqrtf : ℚ → ℚ)
    (q k v : Activation) (dKV dQ dHead iKV iQ i : ℕ)
    (hKV : iKV < dKV) (hQ : iQ < dQ) (hi : i < dHead)
    (hseq : k.size = dKV * dHead) (hexp : expf 0 ≠ 0) :
    (selfAttention expf sqrtf q k v dKV dQ dHead).data
        (qIdx dKV dQ dHead 0 iKV iQ i) =
      v.data (kvIdx dKV dHead 0 iKV i) := by
  rw [selfAttention_data_at expf sqrtf q k v dKV dQ dHead 0 iKV iQ i hKV hQ hi]
  have hrange : List.range (0 + 1) = [0] := by decide
  simp only [attnEntry, attnScores, hrange, List.map_cons, List.map_nil,
    softmaxInPlace, listMax, List.foldl_nil, sub_self, List.sum_cons,
    List.sum_nil, add_zero, List.getD_cons_zero]
  rw [div_self hexp, one_mul]

/-- Witness for `selfAttention_single_position` with one KV group, one
query head, head dimension 2, at head coordinate 1. -/
theorem selfAttention_single_position_witness :
    ((Activation.mk 2 fun _ => 3).size = 1 * 2 ∧ (fun _ : ℚ => (1 : ℚ)) 0 ≠ 0) ∧
      (selfAttention (fun _ => 1) (fun _ => 1)
          (Activation.mk 2 fun idx => (idx : ℚ) + 1)
          (Activation.mk 2 fun _ => 3)
          (Activation.mk 2 fun idx => 5 * (idx : ℚ) + 7) 1 1 2).data
          (qIdx 1 1 2 0 0 0 1) =
        (Activation.mk 2 fun idx => 5 * (idx : ℚ) + 7).data (kvIdx 1 2 0 0 1) :=
  ⟨⟨by decide, by decide⟩,
    selfAttention_single_position (fun _ => 1) (fun _ => 1)
      (Activation.mk 2 fun idx => (idx : ℚ) + 1)
      (Activation.mk 2 fun _ => 3)
      (Activation.mk 2 fun idx => 5 * (idx : ℚ) + 7) 1 1 2 0 0 1
      (by decide) (by decide) (by decide) (by decide) (by decide)⟩

/-- Claim C4: the decoder places the stored 16-bit value in the upper 16
bits of a 32-bit word with the lower 16 bits zero; taking the upper 16
bits of the bit pattern of `decode(v)` reproduces `v` exactly, for every
16-bit input. -/
theorem bf16_roundtrip (v : ℕ) (h : v < 2 ^ 16) :
    upper16 (bf16_to_float_bits v) = v ∧ bf16_to_float_bits v % 2 ^ 16 = 0 := by
  unfold upper16 bf16_to_float_bits
  omega

/-- Witness for `bf16_roundtrip` at the concrete bit pattern `0xABCD`. -/
theorem bf16_roundtrip_witness :
    43981 < 2 ^ 16 ∧
      (upper16 (bf16_to_float_bits 43981) = 43981 ∧
        bf16_to_float_bits 43981 % 2 ^ 16 = 0) :=
  ⟨by decide, bf16_roundtrip 43981 (by decide)⟩

/-- Claim C6, counterexample: with `num_attention_heads = 5` and
`num_key_value_heads = 2`, `loadConfig` accepts the configuration but
truncating division gives `dAttnQ = 2`, so `dAttnKV · dAttnQ = 4 ≠ 5`. -/
theorem gqa_product_claim_false :
    ¬ ((loadConfig powf1 twoPi1 (cfgEx 0 2 5)).dAttnKV *
        (loadConfig powf1 twoPi1 (cfgEx 0 2 5)).dAttnQ =
        (cfgEx 0 2 5).num_attention_heads) := by
  decide

/-- Claim C6 (amended): for every configuration in which
`num_key_value_heads` divides `num_attention_heads`, the model produced
by `loadConfig` satisfies `num_attention_heads = dAttnKV × dAttnQ`
exactly (`loadConfig` performs no validation, so the equation can fail
when the division truncates); no operation of the embedding mutates the
hyperparameters, so the equation is invariant over the model lifetime. -/
theorem gqa_product_of_dvd (powf : ℚ → ℚ → ℚ) (twoPi : ℚ) (c : Config)
    (h : c.num_key_value_heads ∣ c.num_attention_heads) :
    (loadConfig powf twoPi c).dAttnKV * (loadConfig powf twoPi c).dAttnQ =
      c.num_attention_heads := by
  simpa [loadConfig] using Nat.mul_div_cancel' h

/-- Witness for `gqa_product_of_dvd` with 2 KV heads and 6 query heads. -/
theorem gqa_product_of_dvd_witness :
    (cfgEx 0 2 6).num_key_value_heads ∣ (cfgEx 0 2 6).num_attention_heads ∧
      (loadConfig powf1 twoPi1 (cfgEx 0 2 6)).dAttnKV *
          (loadConfig powf1 twoPi1 (cfgEx 0 2 6)).dAttnQ =
        (cfgEx 0 2 6).num_attention_heads :=
  ⟨by decide, gqa_product_of_dvd powf1 twoPi1 (cfgEx 0 2 6) (by decide)⟩

/-- Claim C3, counterexample: with `head_dim = 1` the loop
`for (i = 0; i < headDim; i += 2)` runs once, so the table has 1 entry,
but `headDim/2 = 0`. -/
theorem ropeFreq_length_claim_false :
    ¬ ((loadConfig powf1 twoPi1 (cfgEx 1 1 1)).ropeFreq.length =
        (cfgEx 1 1 1).head_dim / 2) := by
  decide

/-- Claim C3 (amended): for every configuration with even `head_dim`,
`loadConfig` produces a rope frequency table with exactly `headDim/2`
entries, and the entry at position `i/2` for even `i < headDim` equals
the spec formula `f·((1−z)/scaleFactor + z)` with `f = theta^(−i/headDim)`
and `z = clamp((originalMaxPositions·f/(2π) − lowFreqFactor)/(highFreqFactor
− lowFreqFactor), 0, 1)`.  (For odd `head_dim` the loop produces
`⌈headDim/2⌉` entries instead.) -/
theorem ropeFreq_table_spec (powf : ℚ → ℚ → ℚ) (twoPi : ℚ) (c : Config)
    (h2 : 2 ∣ c.head_dim) :
    (loadConfig powf twoPi c).ropeFreq.length = c.head_dim / 2 ∧
      ∀ i : ℕ, i < c.head_dim → 2 ∣ i →
        (loadConfig powf twoPi c).ropeFreq.getD (i / 2) 0 =
          ropeFreqSpec powf twoPi c.rope_theta c.rope_factor
            c.rope_low_freq_factor c.rope_high_freq_factor
            c.rope_original_max_position_embeddings c.head_dim i := by
  obtain ⟨k, hk⟩ := h2
  constructor
  · simp only [loadConfig, ropeFreqTable, List.length_map, List.length_range]
    omega
  · intro i hi hdvd
    obtain ⟨j, hj⟩ := hdvd
    subst hj
    have hjlt : j < (c.head_dim + 1) / 2 := by omega
    have hj2 : 2 * j / 2 = j := by omega
    simp only [loadConfig, ropeFreqTable, hj2]
    rw [getD_map_range _ _ hjlt]
    simp only [ropeFreqSpec, clamp_ite_eq_clampQ]

/-- Witness for `ropeFreq_table_spec` at a configuration with
`head_dim = 2`. -/
theorem ropeFreq_table_spec_witness :
    2 ∣ (cfgEx 2 1 1).head_dim ∧
      ((loadConfig powf1 twoPi1 (cfgEx 2 1 1)).ropeFreq.length =
          (cfgEx 2 1 1).head_dim / 2 ∧
        ∀ i : ℕ, i < (cfgEx 2 1 1).head_dim → 2 ∣ i →
          (loadConfig powf1 twoPi1 (cfgEx 2 1 1)).ropeFreq.getD (i / 2) 0 =
            ropeFreqSpec powf1 twoPi1 (cfgEx 2 1 1).rope_theta
              (cfgEx 2 1 1).rope_factor (cfgEx 2 1 1).rope_low_freq_factor
              (cfgEx 2 1 1).rope_high_freq_factor
              (cfgEx 2 1 1).rope_original_max_position_embeddings
              (cfgEx 2 1 1).head_dim i) :=
  ⟨by decide, ropeFreq_table_spec powf1 twoPi1 (cfgEx 2 1 1) (by decide)⟩

/-- Claim C8: for every non-empty token sequence, `predict` returns the
arg-max index over the vocabulary of the logits obtained by projecting
the final sequence position's hidden vector (after the final rmsNorm)
with the embedding weight (weight tying); only the last position's
logits determine the result. -/
theorem predict_argmax_last_position (expf sqrtf cosf sinf : ℚ → ℚ)
    (m : Model) (tokens : List ℕ) (hne : tokens ≠ [])
    (hModel : 0 < m.dModel) (hVocab : 0 < m.dVocab) :
    predict expf sqrtf cosf sinf m tokens =
      some (maxElemIdx
        (fun j => (project
            (row (finalHidden expf sqrtf cosf sinf m tokens) m.dModel
              (tokens.length - 1))
            m.embedTokens m.dModel m.dVocab).data j)
        m.dVocab) := by
  have hlenpos : 0 < tokens.length := List.length_pos.mpr hne
  obtain ⟨n0, hlen⟩ : ∃ n0, tokens.length = n0 + 1 :=
    ⟨tokens.length - 1, (Nat.succ_pred_eq_of_pos hlenpos).symm⟩
  have hhs : (finalHidden expf sqrtf cosf sinf m tokens).size =
      tokens.length * m.dModel := finalHidden_size expf sqrtf cosf sinf m tokens
  have hls : (project (finalHidden expf sqrtf cosf sinf m tokens)
      m.embedTokens m.dModel m.dVocab).size = tokens.length * m.dVocab := by
    simp only [project, hhs]
    rw [Nat.mul_div_cancel _ hModel]
  have hguard : 0 < m.dVocab ∧ m.dVocab ≤ tokens.length * m.dVocab := by
    refine ⟨hVocab, ?_⟩
    calc m.dVocab = 1 * m.dVocab := (one_mul _).symm
      _ ≤ tokens.length * m.dVocab := Nat.mul_le_mul_right _ hlenpos
  simp only [predict]
  rw [hls, if_pos hguard]
  refine congrArg some (maxElemIdx_congr _ _ m.dVocab hVocab ?_)
  intro j hj
  dsimp only
  have harith : tokens.length * m.dVocab - m.dVocab + j = n0 * m.dVocab + j := by
    rw [hlen, Nat.succ_mul, Nat.add_sub_cancel]
  rw [harith, hlen, Nat.add_sub_cancel]
  obtain ⟨hdiv, hmod⟩ := div_mod_decomp n0 j m.dVocab hj
  simp only [project, row, hdiv, hmod, Nat.div_eq_of_lt hj,
    Nat.mod_eq_of_lt hj, zero_mul, zero_add]

/-- Witness for `predict_argmax_last_position` on a 0-layer model with
`dModel = 1`, `dVocab = 2` and the single-token input `[0]`. -/
theorem predict_argmax_last_position_witness :
    (([0] : List ℕ) ≠ [] ∧ 0 < modelEx.dModel ∧ 0 < modelEx.dVocab) ∧
      predict (fun _ => 1) (fun _ => 1) (fun _ => 1) (fun _ => 1) modelEx [0] =
        some (maxElemIdx
          (fun j => (project
              (row (finalHidden (fun _ => 1) (fun _ => 1) (fun _ => 1)
                  (fun _ => 1) modelEx [0]) modelEx.dModel
                (([0] : List ℕ).length - 1))
              modelEx.embedTokens modelEx.dModel modelEx.dVocab).data j)
          modelEx.dVocab) :=
  ⟨⟨by decide, by decide, by decide⟩,
    predict_argmax_last_position (fun _ => 1) (fun _ => 1) (fun _ => 1)
      (fun _ => 1) modelEx [0] (by decide) (by decide) (by decide)⟩

/-- Claim C10: for every non-empty input the final-position slice
`[logits.size − dVocab, logits.size)` used by the arg-max is in bounds
(the logits buffer has `tokens·dVocab ≥ dVocab` entries), whereas for
the empty token sequence the logits buffer has size 0, the slice start
underflows, and the arg-max would read out of bounds — modelled by
`predict` returning `none` exactly on the empty sequence. -/
theorem predict_empty_input_out_of_bounds (expf sqrtf cosf sinf : ℚ → ℚ)
    (m : Model) (tokens : List ℕ)
    (hModel : 0 < m.dModel) (hVocab : 0 < m.dVocab) :
    (predict expf sqrtf cosf sinf m tokens).isSome = true ↔ tokens ≠ [] := by
  have hls : (project (finalHidden expf sqrtf cosf sinf m tokens)
      m.embedTokens m.dModel m.dVocab).size = tokens.length * m.dVocab := by
    simp only [project, finalHidden_size]
    rw [Nat.mul_div_cancel _ hModel]
  simp only [predict]
  rw [hls]
  split_ifs with hg
  · simp only [Option.isSome_some, true_iff]
    intro hnil
    subst hnil
    simp only [List.length_nil, zero_mul] at hg
    omega
  · simp only [Option.isSome_none, Bool.false_eq_true, false_iff, ne_eq,
      not_not]
    by_contra h2
    refine hg ⟨hVocab, ?_⟩
    have hlenpos : 0 < tokens.length := List.length_pos.mpr h2
    calc m.dVocab = 1 * m.dVocab := (one_mul _).symm
      _ ≤ tokens.length * m.dVocab := Nat.mul_le_mul_right _ hlenpos

/-- Witness for `predict_empty_input_out_of_bounds` at the empty token
sequence: the arg-max slice is out of bounds and `predict` yields no
result. -/
theorem predict_empty_input_out_of_bounds_witness :
    (0 < modelEx.dModel ∧ 0 < modelEx.dVocab) ∧
      ((predict (fun _ => 1) (fun _ => 1) (fun _ => 1) (fun _ => 1) modelEx
          ([] : List ℕ)).isSome = true ↔ ([] : List ℕ) ≠ []) :=
  ⟨⟨by decide, by decide⟩,
    predict_empty_input_out_of_bounds (fun _ => 1) (fun _ => 1) (fun _ => 1)
      (fun _ => 1) modelEx [] (by decide) (by decide)⟩

/-- Claim C2 evaluation (code bug): `loadParameters` calls `reserve`,
not `resize`, on `_parameterData`, so the owned vector's length stays 0;
for a container with one tensor at `data_offsets = [0, 4]` the maximum
end offset is 4, the buffer length after `reserve` is 0 (not 4), and the
first chunked `file.read` writes past the end of the vector — undefined
behaviour, modelled as the copy yielding no result. -/
theorem loadParameters_reserve_not_resize :
    maxOffset [{ dtype := "BF16", start := 0, stop := 4 }] = 4 ∧
      (reserveVec []
        (maxOffset [{ dtype := "BF16", start := 0, stop := 4 }])).length = 0 ∧
      loadParametersBuffer [{ dtype := "BF16", start := 0, stop := 4 }]
        (fun j => j) = none := by
  decide

lemma loadAllParams_error_iff (header : String → Option HeaderEntry)
    (l : List String) :
    isOkE (loadAllParams header l) = false ↔
      ∃ nm ∈ l, isOkE (loadOne header nm) = false := by
  induction l with
  | nil => simp [loadAllParams, isOkE]
  | cons nm rest ih =>
    cases h1 : loadOne header nm with
    | error e =>
      simp only [loadAllParams, h1, isOkE, true_iff]
      exact ⟨nm, List.mem_cons_self nm rest, by simp [h1, isOkE]⟩
    | ok p =>
      cases h2 : loadAllParams header rest with
      | error e =>
        simp only [loadAllParams, h1, h2, isOkE, true_iff]
        obtain ⟨nm2, hmem, hfail⟩ := ih.mp (by simp [h2, isOkE])
        exact ⟨nm2, List.mem_cons_of_mem nm hmem, hfail⟩
      | ok ps =>
        simp only [loadAllParams, h1, h2, isOkE, Bool.true_eq_false, false_iff]
        rintro ⟨nm2, hmem, hfail⟩
        rcases List.mem_cons.mp hmem with rfl | hmem2
        · rw [h1] at hfail
          simp [isOkE] at hfail
        · have : isOkE (loadAllParams header rest) = false :=
            (ih.mpr ⟨nm2, hmem2, hfail⟩)
          rw [h2] at this
          simp [isOkE] at this

/-- Claim C5: when every required tensor name is present in the header,
the parameter-loading phase of `loadParameters` fails if and only if
some required tensor's header entry has dtype different from `"BF16"`;
the failure is an exception thrown during loading (before any forward
pass), and the aborted load produces no partial result. -/
theorem loadParameters_fails_iff_non_bf16
    (header : String → Option HeaderEntry) (nLayers : ℕ)
    (hpres : ∀ nm ∈ logicalNames nLayers,
      (header (fullName nm)).isSome = true) :
    isOkE (loadAllParams header (logicalNames nLayers)) = false ↔
      ∃ nm ∈ logicalNames nLayers, ∃ e,
        header (fullName nm) = some e ∧ e.dtype ≠ "BF16" := by
  rw [loadAllParams_error_iff]
  constructor
  · rintro ⟨nm, hmem, hfail⟩
    refine ⟨nm, hmem, ?_⟩
    obtain ⟨e, he⟩ := Option.isSome_iff_exists.mp (hpres nm hmem)
    refine ⟨e, he, ?_⟩
    intro hbf
    rw [loadOne, he] at hfail
    simp [hbf, isOkE] at hfail
  · rintro ⟨nm, hmem, e, he, hbf⟩
    refine ⟨nm, hmem, ?_⟩
    rw [loadOne, he]
    simp [hbf, isOkE]

/-- Witness for `loadParameters_fails_iff_non_bf16` at a 0-layer header
whose `norm` tensor is stored as F32: both required names are present
and the load fails. -/
theorem loadParameters_fails_iff_non_bf16_witness :
    (∀ nm ∈ logicalNames 0, (headerEx (fullName nm)).isSome = true) ∧
      (isOkE (loadAllParams headerEx (logicalNames 0)) = false ↔
        ∃ nm ∈ logicalNames 0, ∃ e,
          headerEx (fullName nm) = some e ∧ e.dtype ≠ "BF16") :=
  ⟨by decide, loadParameters_fails_iff_non_bf16 headerEx 0 (by decide)⟩

end LowLlama
